import Mathlib

/-!
Verification of the cache-aware fetcher `fetch_bqss_data` from
`src/explore_bqss/data.py`.

The Python function iterates over a fixed registry of three datasets
(`valeur`, `finess`, `metadata`).  For each dataset it computes the cache
file path `cache_dir / f"{name}.csv"` (or `.parquet` for `finess`); if the
file is absent it downloads the remote resource with the
format-appropriate pandas reader and persists it, otherwise it reads the
local file (pandas for CSV, polars for the `finess` parquet file).

The embedding models the environment explicitly:
* the network is an oracle `Net : String → Option Resource` (a `none`
  answer models an unreachable URL, a non-2xx response, or a body the
  reader cannot parse as the expected format);
* the cache directory is a state `FS` holding its files keyed by file
  name, together with flags for directory existence and writability
  (`cache_dir` itself is a constant prefix of every path the function
  touches, so the directory contents are the whole relevant state);
* CSV serialization is modelled down to the cell level: pandas'
  `read_csv` type inference is modelled on the integer/string/missing
  fragment (a cell is parsed as null when empty, as an integer when it
  is a decimal numeral, and as a string otherwise), and `to_csv` renders
  cells back to text.  Parquet files store typed values and are
  value-preserving by the format's nature.

`fetch_bqss_data` returns the outcome (`Except` of the result bundle),
the final file-system state (side effects persist even when the call
fails, as in Python), and the list of URLs that were accessed.
-/

/-- A typed cell value of a loaded table: pandas' missing value (`NaN`),
an inferred integer, or a plain string.  (The float fragment of pandas'
inference is outside the model.) -/
inductive CellValue where
  | nullVal : CellValue
  | intVal (i : Int) : CellValue
  | strVal (s : String) : CellValue
deriving DecidableEq, Repr

/-- Numeric value of a decimal digit character, `none` for non-digits. -/
def digitVal (c : Char) : Option Nat :=
  if 48 ≤ c.toNat ∧ c.toNat ≤ 57 then some (c.toNat - 48) else none

/-- The decimal digit character for `d < 10`. -/
def digitToChar : Nat → Char
  | 0 => '0'
  | 1 => '1'
  | 2 => '2'
  | 3 => '3'
  | 4 => '4'
  | 5 => '5'
  | 6 => '6'
  | 7 => '7'
  | 8 => '8'
  | 9 => '9'
  | _ => '?'

/-- Parse a digit string left to right, accumulating the value.
Accepts leading zeros, as pandas does. -/
def parseNatChars : List Char → Nat → Option Nat
  | [], acc => some acc
  | c :: cs, acc =>
    match digitVal c with
    | some d => parseNatChars cs (acc * 10 + d)
    | none => none

/-- Parse an optionally `-`-signed nonempty digit string as an integer. -/
def parseIntChars : List Char → Option Int
  | [] => none
  | c :: cs =>
    if c = '-' then
      if cs = [] then none
      else (parseNatChars cs 0).map (fun n => -(Int.ofNat n))
    else (parseNatChars (c :: cs) 0).map (fun n => Int.ofNat n)

/-- Standard decimal rendering of a natural number. -/
def renderNatChars (n : Nat) : List Char :=
  if n = 0 then ['0'] else ((Nat.digits 10 n).reverse.map digitToChar)

/-- Decimal rendering of an integer, with a `-` sign when negative. -/
def renderIntChars (i : Int) : List Char :=
  if i < 0 then '-' :: renderNatChars i.natAbs else renderNatChars i.natAbs

/-- pandas `read_csv` cell inference on the modelled fragment: an empty
cell is missing, a decimal numeral is an integer, anything else stays a
string. -/
def parseCellChars (l : List Char) : CellValue :=
  if l = [] then .nullVal
  else
    match parseIntChars l with
    | some i => .intVal i
    | none => .strVal ⟨l⟩

/-- pandas `to_csv` cell rendering: missing values print as empty,
integers in decimal, strings verbatim. -/
def renderCellChars : CellValue → List Char
  | .nullVal => []
  | .intVal i => renderIntChars i
  | .strVal s => s.data

theorem digitVal_digitToChar {d : Nat} (hd : d < 10) :
    digitVal (digitToChar d) = some d := by
  revert hd
  revert d
  decide

theorem digitToChar_ne_dash {d : Nat} (hd : d < 10) : digitToChar d ≠ '-' := by
  intro h
  have h1 := digitVal_digitToChar hd
  rw [h] at h1
  simp [digitVal] at h1

theorem parseNatChars_map_digitToChar (l : List Nat) (hl : ∀ d ∈ l, d < 10) :
    ∀ acc : Nat,
      parseNatChars (l.map digitToChar) acc =
        some (acc * 10 ^ l.length + Nat.ofDigits 10 l.reverse) := by
  induction l with
  | nil => intro acc; simp [parseNatChars]
  | cons d t ih =>
    intro acc
    have hd : d < 10 := hl d (List.mem_cons_self d t)
    have ht : ∀ x ∈ t, x < 10 := fun x hx => hl x (List.mem_cons_of_mem d hx)
    simp only [List.map_cons, parseNatChars, digitVal_digitToChar hd]
    rw [ih ht (acc * 10 + d)]
    congr 1
    rw [List.reverse_cons, Nat.ofDigits_append]
    simp [Nat.ofDigits_singleton, List.length_reverse]
    ring

theorem parseNatChars_renderNatChars (n : Nat) :
    parseNatChars (renderNatChars n) 0 = some n := by
  by_cases h : n = 0
  · subst h; decide
  · have hlt : ∀ d ∈ (Nat.digits 10 n).reverse, d < 10 := by
      intro d hd
      exact Nat.digits_lt_base (by norm_num) (List.mem_reverse.mp hd)
    rw [renderNatChars, if_neg h,
      parseNatChars_map_digitToChar _ hlt 0]
    simp [Nat.ofDigits_digits]

theorem renderNatChars_ne_nil (n : Nat) : renderNatChars n ≠ [] := by
  by_cases h : n = 0
  · subst h; decide
  · rw [renderNatChars, if_neg h]
    simp [Nat.digits_ne_nil_iff_ne_zero.mpr h]

theorem mem_renderNatChars_ne_dash {n : Nat} {c : Char}
    (hc : c ∈ renderNatChars n) : c ≠ '-' := by
  by_cases h : n = 0
  · subst h
    have h0 : renderNatChars 0 = ['0'] := rfl
    rw [h0, List.mem_singleton] at hc
    subst hc; decide
  · rw [renderNatChars, if_neg h] at hc
    obtain ⟨d, hd, rfl⟩ := List.mem_map.mp hc
    exact digitToChar_ne_dash
      (Nat.digits_lt_base (by norm_num) (List.mem_reverse.mp hd))

theorem parseIntChars_renderIntChars (i : Int) :
    parseIntChars (renderIntChars i) = some i := by
  by_cases hneg : i < 0
  · rw [renderIntChars, if_pos hneg, parseIntChars,
      if_pos rfl, if_neg (renderNatChars_ne_nil i.natAbs),
      parseNatChars_renderNatChars]
    simp only [Option.map_some', Int.ofNat_eq_natCast]
    congr 1
    omega
  · rw [renderIntChars, if_neg hneg]
    obtain ⟨c, cs, hcons⟩ :
        ∃ c cs, renderNatChars i.natAbs = c :: cs := by
      cases hr : renderNatChars i.natAbs with
      | nil => exact absurd hr (renderNatChars_ne_nil i.natAbs)
      | cons c cs => exact ⟨c, cs, rfl⟩
    have hdash : c ≠ '-' :=
      mem_renderNatChars_ne_dash (hcons ▸ List.mem_cons_self c cs)
    rw [hcons, parseIntChars, if_neg hdash, ← hcons,
      parseNatChars_renderNatChars]
    simp only [Option.map_some', Int.ofNat_eq_natCast]
    congr 1
    omega

theorem renderIntChars_ne_nil (i : Int) : renderIntChars i ≠ [] := by
  rw [renderIntChars]
  split
  · simp
  · exact renderNatChars_ne_nil i.natAbs

/-- Print–parse idempotency at the cell level: re-parsing a rendered
parsed cell gives the parsed cell back. -/
theorem parseCellChars_renderCellChars (l : List Char) :
    parseCellChars (renderCellChars (parseCellChars l)) = parseCellChars l := by
  by_cases hnil : l = []
  · subst hnil; decide
  · cases hint : parseIntChars l with
    | some i =>
      have hl : parseCellChars l = .intVal i := by
        simp [parseCellChars, hnil, hint]
      rw [hl]
      simp [parseCellChars, renderCellChars, renderIntChars_ne_nil i,
        parseIntChars_renderIntChars]
    | none =>
      have hl : parseCellChars l = .strVal ⟨l⟩ := by
        simp [parseCellChars, hnil, hint]
      rw [hl]
      exact hl

/-- String-level cell parsing (pandas `read_csv` inference on the
modelled fragment). -/
def parseCell (s : String) : CellValue := parseCellChars s.data

/-- String-level cell rendering (pandas `to_csv`). -/
def renderCell (v : CellValue) : String := ⟨renderCellChars v⟩

/-- An in-memory table: column names plus rows of typed cell values. -/
structure Table where
  header : List String
  rows : List (List CellValue)
deriving DecidableEq, Repr

/-- The logical content of a CSV document: a header line and rows of
text cells (the comma/quote encoding of individual cells is below the
model's level of abstraction). -/
structure CsvData where
  header : List String
  rows : List (List String)
deriving DecidableEq, Repr

/-- Model of `pd.read_csv` applied to CSV content: parse every cell. -/
def readCsvData (d : CsvData) : Table :=
  ⟨d.header, d.rows.map (fun r => r.map parseCell)⟩

/-- Model of `DataFrame.to_csv(..., index=False)`: render every cell. -/
def writeCsvData (t : Table) : CsvData :=
  ⟨t.header, t.rows.map (fun r => r.map renderCell)⟩

/-- Content of a file in the cache directory.  A parquet file stores the
table's typed values directly (the format is self-describing and
value-preserving). -/
inductive FileData where
  | csvFile (d : CsvData)
  | parquetFile (t : Table)
deriving DecidableEq, Repr

/-- Body of a remote resource, as far as the readers can see it. -/
inductive Resource where
  | csvRes (d : CsvData)
  | parquetRes (t : Table)
deriving DecidableEq, Repr

/-- The network oracle: `none` models an unreachable URL or a non-2xx
response. -/
def Net : Type := String → Option Resource

/-- State of the cache directory: whether it exists, whether it is
writable, and its files keyed by file name (later writes shadow earlier
entries; the fetcher never writes a name twice). -/
structure FS where
  dirExists : Bool
  writable : Bool
  files : List (String × FileData)
deriving DecidableEq, Repr

def FS.lookup (fs : FS) (p : String) : Option FileData :=
  fs.files.lookup p

/-- Model of `Path.exists()` for a path inside the cache directory. -/
def FS.pathExists (fs : FS) (p : String) : Bool :=
  fs.dirExists && (fs.lookup p).isSome

/-- Writing a file: fails (an `OSError`, the spec's StorageFailure
condition) when the directory is missing or read-only. -/
def FS.write (fs : FS) (p : String) (d : FileData) : Option FS :=
  if fs.dirExists && fs.writable then
    some { fs with files := (p, d) :: fs.files }
  else none

/-- Which library produced the in-memory frame. -/
inductive Engine where
  | pandas
  | polars
deriving DecidableEq, Repr

/-- A loaded data frame: the producing engine plus the table content. -/
structure DataFrame where
  engine : Engine
  table : Table
deriving DecidableEq, Repr

/-- The two fatal error kinds of the spec. -/
inductive Err where
  | RetrievalFailure
  | StorageFailure
deriving DecidableEq, Repr

/-- Model of `pd.read_csv(url, low_memory=False)`: fails when the resource is
unreachable or its body is not CSV. -/
def pdReadCsvUrl (net : Net) (url : String) : Option DataFrame :=
  match net url with
  | some (.csvRes d) => some ⟨.pandas, readCsvData d⟩
  | _ => none

/-- Model of `pd.read_parquet(url)`: fails when the resource is unreachable or
its body is not parquet. -/
def pdReadParquetUrl (net : Net) (url : String) : Option DataFrame :=
  match net url with
  | some (.parquetRes t) => some ⟨.pandas, t⟩
  | _ => none

/-- One iteration of the loop body of `fetch_bqss_data`
(src/explore_bqss/data.py lines 36-52) for dataset `name` with remote
`url`.  Returns the outcome for this dataset, the file-system state
after the iteration, and the URLs accessed during it. -/
def fetchOne (net : Net) (fs : FS) (name url : String) :
    Except Err DataFrame × FS × List String :=
  if name ≠ "finess" then
    let localPath := name ++ ".csv"
    if !(fs.pathExists localPath) then
      match pdReadCsvUrl net url with
      | some df =>
        match fs.write localPath (.csvFile (writeCsvData df.table)) with
        | some fs' => (.ok df, fs', [url])
        | none => (.error .StorageFailure, fs, [url])
      | none => (.error .RetrievalFailure, fs, [url])
    else
      match fs.lookup localPath with
      | some (.csvFile d) => (.ok ⟨.pandas, readCsvData d⟩, fs, [])
      | _ => (.error .RetrievalFailure, fs, [])
  else
    let localPath := name ++ ".parquet"
    if !(fs.pathExists localPath) then
      match pdReadParquetUrl net url with
      | some df =>
        match fs.write localPath (.parquetFile df.table) with
        | some fs' => (.ok df, fs', [url])
        | none => (.error .StorageFailure, fs, [url])
      | none => (.error .RetrievalFailure, fs, [url])
    else
      match fs.lookup localPath with
      | some (.parquetFile t) => (.ok ⟨.polars, t⟩, fs, [])
      | _ => (.error .RetrievalFailure, fs, [])

def valeurUrl : String :=
  "https://www.data.gouv.fr/fr/datasets/r/da295ccc-2011-4995-b810-ad1f1a82a83f"

def finessUrl : String :=
  "https://www.data.gouv.fr/fr/datasets/r/b8ef14e5-4f98-4596-82ed-44881c65a0cc"

def metadataUrl : String :=
  "https://www.data.gouv.fr/fr/datasets/r/e56fb5a5-5a74-4507-ba77-e0411d4aa234"

/-- The hardcoded `df_metadata` registry, in source order. -/
def registry : List (String × String) :=
  [("valeur", valeurUrl), ("finess", finessUrl), ("metadata", metadataUrl)]

/-- The `for df_metadata_dict in df_metadata` loop: threads the
file-system state, accumulates the `df_dict` entries in insertion
order, and aborts on the first raised error (the Python exception
propagates; file-system effects persist). -/
def fetchLoop (net : Net) :
    List (String × String) → FS → List (String × DataFrame) → List String →
      Except Err (List (String × DataFrame)) × FS × List String
  | [], fs, acc, log => (.ok acc, fs, log)
  | (name, url) :: rest, fs, acc, log =>
    match fetchOne net fs name url with
    | (.ok df, fs', l) => fetchLoop net rest fs' (acc ++ [(name, df)]) (log ++ l)
    | (.error e, fs', l) => (.error e, fs', log ++ l)

/-- Model of `fetch_bqss_data(cache_dir)`: the whole call, relative to a network
oracle and the state of the cache directory. -/
def fetch_bqss_data (net : Net) (fs : FS) :
    Except Err (List (String × DataFrame)) × FS × List String :=
  fetchLoop net registry fs [] []

/-- Cache file name of a dataset, as the source computes it
(`f"{df_name}.csv"`, or `.parquet` for `finess`). -/
def fileName (name : String) : String :=
  if name = "finess" then name ++ ".parquet" else name ++ ".csv"

/-- The file stored for a dataset has the format its reader expects. -/
def wellFormed (name : String) (fd : FileData) : Prop :=
  if name = "finess" then ∃ t, fd = .parquetFile t
  else ∃ d, fd = .csvFile d

/-- Every cache file present for a registered dataset has the format
its reader expects (the spec's presence-equals-validity invariant). -/
def goodCache (fs : FS) : Prop :=
  ∀ name ∈ ["valeur", "finess", "metadata"],
    ∀ fd, fs.lookup (fileName name) = some fd → wellFormed name fd

/-- The on-disk file `fd` stores table `t` for dataset `name`: parquet
files store the value directly; a CSV file stores it if re-reading the
file parses to `t`. -/
def storesTable (name : String) (fd : FileData) (t : Table) : Prop :=
  if name = "finess" then fd = .parquetFile t
  else ∃ d, fd = .csvFile d ∧ readCsvData d = t

/-- The network answers for dataset `name` at `url` with a body the
format-appropriate reader accepts. -/
def netOkFor (net : Net) (name url : String) : Prop :=
  if name = "finess" then ∃ t, net url = some (.parquetRes t)
  else ∃ d, net url = some (.csvRes d)

theorem FS.lookup_write {fs fs' : FS} {q : String} {d : FileData}
    (hw : fs.write q d = some fs') (p : String) :
    fs'.lookup p = if p = q then some d else fs.lookup p := by
  unfold FS.write at hw
  split at hw
  · injection hw with h
    subst h
    by_cases hpq : p = q
    · simp [FS.lookup, List.lookup, hpq]
    · simp [FS.lookup, List.lookup, hpq, beq_eq_false_iff_ne.mpr hpq]
  · exact absurd hw (by simp)

theorem FS.write_flags {fs fs' : FS} {q : String} {d : FileData}
    (hw : fs.write q d = some fs') :
    fs'.dirExists = fs.dirExists ∧ fs'.writable = fs.writable := by
  unfold FS.write at hw
  split at hw
  · injection hw with h
    subst h
    exact ⟨rfl, rfl⟩
  · exact absurd hw (by simp)

theorem FS.write_ok {fs : FS} {q : String} {d : FileData}
    (hdir : fs.dirExists = true) (hwr : fs.writable = true) :
    fs.write q d = some { fs with files := (q, d) :: fs.files } := by
  unfold FS.write
  rw [hdir, hwr]
  rfl

theorem FS.write_fail {fs : FS} {q : String} {d : FileData}
    (h : ¬(fs.dirExists = true ∧ fs.writable = true)) :
    fs.write q d = none := by
  unfold FS.write
  rw [if_neg]
  simpa using h

theorem pdReadCsvUrl_none {net : Net} {url : String}
    (h : ¬ ∃ d, net url = some (.csvRes d)) : pdReadCsvUrl net url = none := by
  rw [pdReadCsvUrl]
  cases hnu : net url with
  | none => rfl
  | some r =>
    cases r with
    | csvRes d => exact absurd ⟨d, hnu⟩ h
    | parquetRes t => rfl

theorem pdReadParquetUrl_none {net : Net} {url : String}
    (h : ¬ ∃ t, net url = some (.parquetRes t)) : pdReadParquetUrl net url = none := by
  rw [pdReadParquetUrl]
  cases hnu : net url with
  | none => rfl
  | some r =>
    cases r with
    | csvRes d => rfl
    | parquetRes t => exact absurd ⟨t, hnu⟩ h

theorem fetchOne_hit {net : Net} {fs : FS} {name url : String} {fd : FileData}
    (hdir : fs.dirExists = true)
    (hfd : fs.lookup (fileName name) = some fd)
    (hwf : wellFormed name fd) :
    ∃ df : DataFrame,
      fetchOne net fs name url = (.ok df, fs, []) ∧
      storesTable name fd df.table ∧
      df.engine = if name = "finess" then Engine.polars else Engine.pandas := by
  by_cases hn : name = "finess"
  · subst hn
    rw [fileName, if_pos rfl] at hfd
    rw [wellFormed, if_pos rfl] at hwf
    obtain ⟨t, rfl⟩ := hwf
    have hfd2 : fs.lookup "finess.parquet" = some (FileData.parquetFile t) := hfd
    refine ⟨⟨.polars, t⟩, ?_, ?_, ?_⟩
    · simp [fetchOne, FS.pathExists, hdir, hfd2]
    · rw [storesTable, if_pos rfl]
    · rw [if_pos rfl]
  · rw [fileName, if_neg hn] at hfd
    rw [wellFormed, if_neg hn] at hwf
    obtain ⟨d, rfl⟩ := hwf
    refine ⟨⟨.pandas, readCsvData d⟩, ?_, ?_, ?_⟩
    · simp [fetchOne, hn, FS.pathExists, hdir, hfd]
    · rw [storesTable, if_neg hn]
      exact ⟨d, rfl, rfl⟩
    · rw [if_neg hn]

theorem fetchOne_miss_csv {net : Net} {fs : FS} {name url : String} {d : CsvData}
    (hn : name ≠ "finess")
    (hmiss : fs.pathExists (name ++ ".csv") = false)
    (hnet : net url = some (.csvRes d))
    (hdir : fs.dirExists = true) (hwr : fs.writable = true) :
    fetchOne net fs name url =
      (.ok ⟨.pandas, readCsvData d⟩,
        { fs with
          files := (name ++ ".csv",
            .csvFile (writeCsvData (readCsvData d))) :: fs.files },
        [url]) := by
  simp [fetchOne, hn, hmiss, pdReadCsvUrl, hnet, FS.write_ok hdir hwr]

theorem fetchOne_miss_parquet {net : Net} {fs : FS} {url : String} {t : Table}
    (hmiss : fs.pathExists ("finess" ++ ".parquet") = false)
    (hnet : net url = some (.parquetRes t))
    (hdir : fs.dirExists = true) (hwr : fs.writable = true) :
    fetchOne net fs "finess" url =
      (.ok ⟨.pandas, t⟩,
        { fs with files := ("finess" ++ ".parquet", .parquetFile t) :: fs.files },
        [url]) := by
  have hmiss2 : fs.pathExists "finess.parquet" = false := hmiss
  simp [fetchOne, hmiss2, pdReadParquetUrl, hnet, FS.write_ok hdir hwr]

theorem fetchOne_miss_badnet {net : Net} {fs : FS} {name url : String}
    (hmiss : fs.pathExists (fileName name) = false)
    (hbad : ¬ netOkFor net name url) :
    fetchOne net fs name url = (.error .RetrievalFailure, fs, [url]) := by
  by_cases hn : name = "finess"
  · subst hn
    rw [netOkFor, if_pos rfl] at hbad
    rw [fileName, if_pos rfl] at hmiss
    have hmiss2 : fs.pathExists "finess.parquet" = false := hmiss
    simp [fetchOne, hmiss2, pdReadParquetUrl_none hbad]
  · rw [netOkFor, if_neg hn] at hbad
    rw [fileName, if_neg hn] at hmiss
    simp [fetchOne, hn, hmiss, pdReadCsvUrl_none hbad]

theorem fetchOne_miss_nowrite {net : Net} {fs : FS} {name url : String}
    (hmiss : fs.pathExists (fileName name) = false)
    (hok : netOkFor net name url)
    (hro : ¬(fs.dirExists = true ∧ fs.writable = true)) :
    fetchOne net fs name url = (.error .StorageFailure, fs, [url]) := by
  by_cases hn : name = "finess"
  · subst hn
    rw [netOkFor, if_pos rfl] at hok
    rw [fileName, if_pos rfl] at hmiss
    obtain ⟨t, hnet⟩ := hok
    have hmiss2 : fs.pathExists "finess.parquet" = false := hmiss
    simp [fetchOne, hmiss2, pdReadParquetUrl, hnet, FS.write_fail hro]
  · rw [netOkFor, if_neg hn] at hok
    rw [fileName, if_neg hn] at hmiss
    obtain ⟨d, hnet⟩ := hok
    simp [fetchOne, hn, hmiss, pdReadCsvUrl, hnet, FS.write_fail hro]

theorem lookup_cons_ne {q p : String} {d : FileData}
    {fl : List (String × FileData)} (hne : p ≠ q) :
    List.lookup p ((q, d) :: fl) = List.lookup p fl := by
  simp [List.lookup, beq_eq_false_iff_ne.mpr hne]

theorem fetchOne_hit_any {net : Net} {fs : FS} {name url : String}
    (hex : fs.pathExists (fileName name) = true) :
    ∃ r, fetchOne net fs name url = (r, fs, []) ∧
      ∀ e, r = .error e → e = .RetrievalFailure := by
  rw [FS.pathExists, Bool.and_eq_true] at hex
  have hdir : fs.dirExists = true := hex.1
  have hsome := hex.2
  obtain ⟨fd, hfd⟩ := Option.isSome_iff_exists.mp hsome
  by_cases hn : name = "finess"
  · subst hn
    rw [fileName, if_pos rfl] at hfd
    have hfd2 : fs.lookup "finess.parquet" = some fd := hfd
    cases fd with
    | csvFile d =>
      exact ⟨.error .RetrievalFailure,
        by simp [fetchOne, FS.pathExists, hdir, hfd2],
        fun e he => by injection he with he; exact he.symm⟩
    | parquetFile t =>
      exact ⟨.ok ⟨.polars, t⟩, by simp [fetchOne, FS.pathExists, hdir, hfd2],
        fun e he => by exact absurd he (by simp)⟩
  · rw [fileName, if_neg hn] at hfd
    cases fd with
    | csvFile d =>
      exact ⟨.ok ⟨.pandas, readCsvData d⟩,
        by simp [fetchOne, hn, FS.pathExists, hdir, hfd],
        fun e he => by exact absurd he (by simp)⟩
    | parquetFile t =>
      exact ⟨.error .RetrievalFailure,
        by simp [fetchOne, hn, FS.pathExists, hdir, hfd],
        fun e he => by injection he with he; exact he.symm⟩

/-- Combined state- and log-effect facts about one loop iteration, for
any outcome: the directory flags are untouched, every pre-existing file
is untouched, a cache hit accesses no URL, and every accessed URL is
the dataset's own. -/
theorem fetchOne_effects (net : Net) (fs : FS) (name url : String) :
    (fetchOne net fs name url).2.1.dirExists = fs.dirExists ∧
    (fetchOne net fs name url).2.1.writable = fs.writable ∧
    (∀ p fd, fs.lookup p = some fd →
      (fetchOne net fs name url).2.1.lookup p = some fd) ∧
    (fs.pathExists (fileName name) = true →
      (fetchOne net fs name url).2.2 = []) ∧
    (∀ u ∈ (fetchOne net fs name url).2.2, u = url) := by
  by_cases hex : fs.pathExists (fileName name) = true
  · obtain ⟨r, heq, -⟩ := @fetchOne_hit_any net fs name url hex
    rw [heq]
    exact ⟨rfl, rfl, fun p fd h => h, fun _ => rfl, by simp⟩
  · have hmiss : fs.pathExists (fileName name) = false := by
      simpa using hex
    have hvac : ¬ fs.pathExists (fileName name) = true := hex
    by_cases hok : netOkFor net name url
    · by_cases hrw : fs.dirExists = true ∧ fs.writable = true
      · by_cases hn : name = "finess"
        · subst hn
          rw [netOkFor, if_pos rfl] at hok
          obtain ⟨t, hnet⟩ := hok
          rw [fileName, if_pos rfl] at hmiss
          rw [fetchOne_miss_parquet hmiss hnet hrw.1 hrw.2]
          have hq : fs.lookup ("finess" ++ ".parquet") = none := by
            rw [FS.pathExists, hrw.1] at hmiss
            simpa using hmiss
          refine ⟨rfl, rfl, ?_, fun hc => absurd hc hvac, by simp⟩
          intro p fd h
          have hne : p ≠ "finess" ++ ".parquet" := fun he => by
            rw [he, hq] at h; cases h
          show List.lookup p (("finess" ++ ".parquet", _) :: fs.files) = some fd
          rw [lookup_cons_ne hne]
          exact h
        · rw [netOkFor, if_neg hn] at hok
          obtain ⟨d, hnet⟩ := hok
          rw [fileName, if_neg hn] at hmiss
          rw [fetchOne_miss_csv hn hmiss hnet hrw.1 hrw.2]
          have hq : fs.lookup (name ++ ".csv") = none := by
            rw [FS.pathExists, hrw.1] at hmiss
            simpa using hmiss
          refine ⟨rfl, rfl, ?_, fun hc => absurd hc hvac, by simp⟩
          intro p fd h
          have hne : p ≠ name ++ ".csv" := fun he => by
            rw [he, hq] at h; cases h
          show List.lookup p ((name ++ ".csv", _) :: fs.files) = some fd
          rw [lookup_cons_ne hne]
          exact h
      · rw [fetchOne_miss_nowrite hmiss hok hrw]
        exact ⟨rfl, rfl, fun p fd h => h, fun hc => absurd hc hvac, by simp⟩
    · rw [fetchOne_miss_badnet hmiss hok]
      exact ⟨rfl, rfl, fun p fd h => h, fun hc => absurd hc hvac, by simp⟩

theorem fetchOne_preserves_pathExists {net : Net} {fs : FS} {name url q : String}
    (h : fs.pathExists q = true) :
    (fetchOne net fs name url).2.1.pathExists q = true := by
  rw [FS.pathExists, Bool.and_eq_true] at h
  obtain ⟨fd, hfd⟩ := Option.isSome_iff_exists.mp h.2
  have he := fetchOne_effects net fs name url
  rw [FS.pathExists, Bool.and_eq_true]
  refine ⟨he.1.trans h.1, ?_⟩
  rw [he.2.2.1 q fd hfd]
  rfl

/-- Loop-level effect facts, by induction over the remaining registry:
the directory flags never change, pre-existing files are never touched,
and every URL in the final log either was already logged or belongs to
a remaining dataset whose cache file was absent at loop entry. -/
theorem fetchLoop_effects (net : Net) (rest : List (String × String)) :
    ∀ (fs : FS) (acc : List (String × DataFrame)) (log : List String),
      (fetchLoop net rest fs acc log).2.1.dirExists = fs.dirExists ∧
      (fetchLoop net rest fs acc log).2.1.writable = fs.writable ∧
      (∀ p fd, fs.lookup p = some fd →
        (fetchLoop net rest fs acc log).2.1.lookup p = some fd) ∧
      (∀ u ∈ (fetchLoop net rest fs acc log).2.2,
        u ∈ log ∨ ∃ pr ∈ rest, u = pr.2 ∧
          fs.pathExists (fileName pr.1) = false) := by
  induction rest with
  | nil =>
    intro fs acc log
    exact ⟨rfl, rfl, fun p fd h => h, fun u hu => Or.inl hu⟩
  | cons head rest ih =>
    intro fs acc log
    obtain ⟨name, url⟩ := head
    have he := fetchOne_effects net fs name url
    rcases heq : fetchOne net fs name url with ⟨r, fs1, l1⟩
    rw [heq] at he
    cases r with
    | error e =>
      simp only [fetchLoop, heq]
      refine ⟨he.1, he.2.1, he.2.2.1, ?_⟩
      intro u hu
      rcases List.mem_append.mp hu with h | h
      · exact Or.inl h
      · have hu2 : u = url := he.2.2.2.2 u h
        have hne : l1 ≠ [] := List.ne_nil_of_mem h
        have hpe : fs.pathExists (fileName name) = false := by
          by_cases hx : fs.pathExists (fileName name) = true
          · exact absurd (he.2.2.2.1 hx) hne
          · simpa using hx
        exact Or.inr ⟨(name, url), List.mem_cons_self _ _, hu2, hpe⟩
    | ok df =>
      simp only [fetchLoop, heq]
      have iheff := ih fs1 (acc ++ [(name, df)]) (log ++ l1)
      refine ⟨iheff.1.trans he.1, iheff.2.1.trans he.2.1, ?_, ?_⟩
      · intro p fd h
        exact iheff.2.2.1 p fd (he.2.2.1 p fd h)
      · intro u hu
        rcases iheff.2.2.2 u hu with h | h
        · rcases List.mem_append.mp h with h2 | h2
          · exact Or.inl h2
          · have hu2 : u = url := he.2.2.2.2 u h2
            have hne : l1 ≠ [] := List.ne_nil_of_mem h2
            have hpe : fs.pathExists (fileName name) = false := by
              by_cases hx : fs.pathExists (fileName name) = true
              · exact absurd (he.2.2.2.1 hx) hne
              · simpa using hx
            exact Or.inr ⟨(name, url), List.mem_cons_self _ _, hu2, hpe⟩
        · obtain ⟨pr, hpr, hu2, hpe1⟩ := h
          refine Or.inr ⟨pr, List.mem_cons_of_mem _ hpr, hu2, ?_⟩
          by_cases hx : fs.pathExists (fileName pr.1) = true
          · have hpres : (fetchOne net fs name url).2.1.pathExists
                (fileName pr.1) = true :=
              fetchOne_preserves_pathExists hx
            rw [heq] at hpres
            dsimp only at hpres
            rw [hpres] at hpe1
            exact Bool.noConfusion hpe1
          · simpa using hx

/-- Sample data used to instantiate hypothesis-bearing theorems. -/
def sampleCsv : CsvData := ⟨["a", "b"], [["1", "x"], ["", "-25"]]⟩

def sampleCsv2 : CsvData := ⟨["c"], [["hello"]]⟩

def sampleTable : Table := ⟨["n"], [[.intVal 7], [.nullVal]]⟩

/-- A cache directory holding all three well-formed cache files. -/
def fsAllCached : FS :=
  ⟨true, true,
    [("valeur.csv", .csvFile sampleCsv),
     ("finess.parquet", .parquetFile sampleTable),
     ("metadata.csv", .csvFile sampleCsv2)]⟩

/-- A network oracle on which every URL is unreachable. -/
def netNone : Net := fun _ => none

/-- A network oracle serving all three registered URLs. -/
def netAll : Net := fun u =>
  if u = valeurUrl then some (.csvRes sampleCsv)
  else if u = finessUrl then some (.parquetRes sampleTable)
  else if u = metadataUrl then some (.csvRes sampleCsv2)
  else none

/-- An existing, writable, empty cache directory. -/
def fsEmpty : FS := ⟨true, true, []⟩

/-- Full-call computation when all three cache files are present and
well-formed: pure cache hits, no network access, state unchanged. -/
theorem run_all_cached (net : Net) (fs : FS)
    (dv : CsvData) (tf : Table) (dm : CsvData)
    (hdir : fs.dirExists = true)
    (hv : fs.lookup "valeur.csv" = some (.csvFile dv))
    (hf : fs.lookup "finess.parquet" = some (.parquetFile tf))
    (hm : fs.lookup "metadata.csv" = some (.csvFile dm)) :
    fetch_bqss_data net fs =
      (.ok [("valeur", ⟨.pandas, readCsvData dv⟩),
            ("finess", ⟨.polars, tf⟩),
            ("metadata", ⟨.pandas, readCsvData dm⟩)],
        fs, []) := by
  have h1 : fetchOne net fs "valeur" valeurUrl =
      (.ok ⟨.pandas, readCsvData dv⟩, fs, []) := by
    simp [fetchOne, FS.pathExists, hdir, hv]
  have h2 : fetchOne net fs "finess" finessUrl =
      (.ok ⟨.polars, tf⟩, fs, []) := by
    simp [fetchOne, FS.pathExists, hdir, hf]
  have h3 : fetchOne net fs "metadata" metadataUrl =
      (.ok ⟨.pandas, readCsvData dm⟩, fs, []) := by
    simp [fetchOne, FS.pathExists, hdir, hm]
  rw [fetch_bqss_data, registry]
  simp only [fetchLoop, h1, h2, h3]
  simp

/-- Claim C1: when a dataset's cache file exists the fetcher loads it
from disk with the format-appropriate reader and accesses no URL for
it; with all three files present the call accesses no URL at all,
leaves the directory unchanged, and returns exactly the parses of the
on-disk content. -/
theorem c1_cache_hit_no_network (net : Net) (fs : FS)
    (dv : CsvData) (tf : Table) (dm : CsvData)
    (hdir : fs.dirExists = true)
    (hv : fs.lookup "valeur.csv" = some (.csvFile dv))
    (hf : fs.lookup "finess.parquet" = some (.parquetFile tf))
    (hm : fs.lookup "metadata.csv" = some (.csvFile dm)) :
    fetch_bqss_data net fs =
      (.ok [("valeur", ⟨.pandas, readCsvData dv⟩),
            ("finess", ⟨.polars, tf⟩),
            ("metadata", ⟨.pandas, readCsvData dm⟩)],
        fs, []) ∧
    ∀ pr ∈ registry, pr.2 ∉ (fetch_bqss_data net fs).2.2 := by
  have heq := run_all_cached net fs dv tf dm hdir hv hf hm
  refine ⟨heq, ?_⟩
  rw [heq]
  intro pr _
  exact List.not_mem_nil pr.2

/-- Witness for C1 at a concrete cache state. -/
theorem c1_cache_hit_no_network_witness :
    fetch_bqss_data netNone fsAllCached =
      (.ok [("valeur", ⟨.pandas, readCsvData sampleCsv⟩),
            ("finess", ⟨.polars, sampleTable⟩),
            ("metadata", ⟨.pandas, readCsvData sampleCsv2⟩)],
        fsAllCached, []) ∧
    ∀ pr ∈ registry, pr.2 ∉ (fetch_bqss_data netNone fsAllCached).2.2 :=
  c1_cache_hit_no_network netNone fsAllCached sampleCsv sampleTable sampleCsv2
    rfl rfl rfl rfl

/-- Full-call computation when none of the three files is cached and
all three downloads succeed. -/
theorem run_all_miss (net : Net) (fs : FS)
    (dv : CsvData) (tf : Table) (dm : CsvData)
    (hdir : fs.dirExists = true) (hwr : fs.writable = true)
    (hv : fs.lookup "valeur.csv" = none)
    (hf : fs.lookup "finess.parquet" = none)
    (hm : fs.lookup "metadata.csv" = none)
    (hnv : net valeurUrl = some (.csvRes dv))
    (hnf : net finessUrl = some (.parquetRes tf))
    (hnm : net metadataUrl = some (.csvRes dm)) :
    fetch_bqss_data net fs =
      (.ok [("valeur", ⟨.pandas, readCsvData dv⟩),
            ("finess", ⟨.pandas, tf⟩),
            ("metadata", ⟨.pandas, readCsvData dm⟩)],
        { fs with files :=
            ("metadata.csv", .csvFile (writeCsvData (readCsvData dm))) ::
            ("finess.parquet", .parquetFile tf) ::
            ("valeur.csv", .csvFile (writeCsvData (readCsvData dv))) :: fs.files },
        [valeurUrl, finessUrl, metadataUrl]) := by
  have hv2 : List.lookup "valeur.csv" fs.files = none := hv
  have hf2 : List.lookup "finess.parquet" fs.files = none := hf
  have hm2 : List.lookup "metadata.csv" fs.files = none := hm
  simp [fetch_bqss_data, registry, fetchLoop, fetchOne, FS.pathExists, FS.write,
    FS.lookup, List.lookup, pdReadCsvUrl, pdReadParquetUrl,
    hv2, hf2, hm2, hnv, hnf, hnm, hdir, hwr]

/-- Claim C2: from a cache directory without any of the three files, a
successful call downloads all three registered datasets in registry
order, writes exactly the three cache files `valeur.csv`,
`finess.parquet`, `metadata.csv` (the canonical extension of each
dataset's format), and returns a bundle with exactly the three fixed
keys. -/
theorem c2_empty_cache_downloads_all (net : Net) (fs : FS)
    (dv : CsvData) (tf : Table) (dm : CsvData)
    (hdir : fs.dirExists = true) (hwr : fs.writable = true)
    (hv : fs.lookup "valeur.csv" = none)
    (hf : fs.lookup "finess.parquet" = none)
    (hm : fs.lookup "metadata.csv" = none)
    (hnv : net valeurUrl = some (.csvRes dv))
    (hnf : net finessUrl = some (.parquetRes tf))
    (hnm : net metadataUrl = some (.csvRes dm)) :
    fetch_bqss_data net fs =
      (.ok [("valeur", ⟨.pandas, readCsvData dv⟩),
            ("finess", ⟨.pandas, tf⟩),
            ("metadata", ⟨.pandas, readCsvData dm⟩)],
        { fs with files :=
            ("metadata.csv", .csvFile (writeCsvData (readCsvData dm))) ::
            ("finess.parquet", .parquetFile tf) ::
            ("valeur.csv", .csvFile (writeCsvData (readCsvData dv))) :: fs.files },
        [valeurUrl, finessUrl, metadataUrl]) :=
  run_all_miss net fs dv tf dm hdir hwr hv hf hm hnv hnf hnm

/-- Witness for C2 at a concrete empty cache and live network. -/
theorem c2_empty_cache_downloads_all_witness :
    fetch_bqss_data netAll fsEmpty =
      (.ok [("valeur", ⟨.pandas, readCsvData sampleCsv⟩),
            ("finess", ⟨.pandas, sampleTable⟩),
            ("metadata", ⟨.pandas, readCsvData sampleCsv2⟩)],
        { fsEmpty with files :=
            ("metadata.csv", .csvFile (writeCsvData (readCsvData sampleCsv2))) ::
            ("finess.parquet", .parquetFile sampleTable) ::
            ("valeur.csv", .csvFile (writeCsvData (readCsvData sampleCsv))) ::
            fsEmpty.files },
        [valeurUrl, finessUrl, metadataUrl]) :=
  c2_empty_cache_downloads_all netAll fsEmpty sampleCsv sampleTable sampleCsv2
    rfl rfl rfl rfl rfl (by decide) (by decide) (by decide)

theorem parseCell_renderCell_parseCell (s : String) :
    parseCell (renderCell (parseCell s)) = parseCell s :=
  parseCellChars_renderCellChars s.data

/-- Table-level CSV round trip on network-parsed tables: re-reading a
just-written CSV serialization of a parsed table parses back to the
same typed values. -/
theorem readCsvData_writeCsvData (d : CsvData) :
    readCsvData (writeCsvData (readCsvData d)) = readCsvData d := by
  simp only [readCsvData, writeCsvData, List.map_map, Function.comp_def,
    parseCell_renderCell_parseCell]

/-- Model of `df.to_parquet(path)` (line 49): the file stores the table's typed
values. -/
def pdWriteParquetFile (t : Table) : FileData := .parquetFile t

/-- Model of `pl.read_parquet(path)` (line 51): reads the stored values back,
failing on a non-parquet file. -/
def plReadParquetFile : FileData → Option Table
  | .parquetFile t => some t
  | .csvFile _ => none

/-- Claim C7: the store-then-load round trip is the identity at the
value level for both serialization formats: re-reading the written CSV
file re-parses to the same table for any table obtained from a network
CSV read, and the parquet writer/reader pair preserves the table
exactly. -/
theorem c7_round_trip_value_level :
    (∀ d : CsvData, readCsvData (writeCsvData (readCsvData d)) = readCsvData d) ∧
    (∀ t : Table, plReadParquetFile (pdWriteParquetFile t) = some t) :=
  ⟨readCsvData_writeCsvData, fun _ => rfl⟩

/-- Postcondition of a successful loop iteration: the directory exists,
and the dataset's cache file now stores (at value level) exactly the
table that was returned. -/
theorem fetchOne_ok {net : Net} {fs : FS} {name url : String} {df : DataFrame}
    {fs' : FS} {l : List String}
    (h : fetchOne net fs name url = (.ok df, fs', l)) :
    fs'.dirExists = true ∧
    ∃ fd, fs'.lookup (fileName name) = some fd ∧ storesTable name fd df.table := by
  by_cases hn : name = "finess"
  · subst hn
    by_cases hex : fs.pathExists (fileName "finess") = true
    · rw [FS.pathExists, Bool.and_eq_true] at hex
      have hdir := hex.1
      obtain ⟨fd, hfd⟩ := Option.isSome_iff_exists.mp hex.2
      rw [fileName, if_pos rfl] at hfd
      have hfd2 : fs.lookup "finess.parquet" = some fd := hfd
      cases fd with
      | csvFile d =>
        have hres : fetchOne net fs "finess" url =
            (.error .RetrievalFailure, fs, []) := by
          simp [fetchOne, FS.pathExists, hdir, hfd2]
        rw [hres] at h
        exact absurd h (by simp)
      | parquetFile t =>
        have hres : fetchOne net fs "finess" url =
            (.ok ⟨.polars, t⟩, fs, []) := by
          simp [fetchOne, FS.pathExists, hdir, hfd2]
        rw [hres] at h
        simp only [Prod.mk.injEq, Except.ok.injEq] at h
        obtain ⟨hdf, hfs, hl⟩ := h
        subst hfs
        refine ⟨hdir, .parquetFile t, hfd, ?_⟩
        rw [storesTable, if_pos rfl, ← hdf]
    · have hmiss : fs.pathExists (fileName "finess") = false := by simpa using hex
      by_cases hok : netOkFor net "finess" url
      · by_cases hrw : fs.dirExists = true ∧ fs.writable = true
        · rw [netOkFor, if_pos rfl] at hok
          obtain ⟨t, hnet⟩ := hok
          rw [fileName, if_pos rfl] at hmiss
          rw [fetchOne_miss_parquet hmiss hnet hrw.1 hrw.2] at h
          simp only [Prod.mk.injEq, Except.ok.injEq] at h
          obtain ⟨hdf, hfs, hl⟩ := h
          subst hfs
          refine ⟨hrw.1, .parquetFile t, ?_, ?_⟩
          · simp [FS.lookup, fileName, List.lookup]
          · rw [storesTable, if_pos rfl, ← hdf]
        · rw [fetchOne_miss_nowrite hmiss hok hrw] at h
          exact absurd h (by simp)
      · rw [fetchOne_miss_badnet hmiss hok] at h
        exact absurd h (by simp)
  · by_cases hex : fs.pathExists (fileName name) = true
    · rw [FS.pathExists, Bool.and_eq_true] at hex
      have hdir := hex.1
      obtain ⟨fd, hfd⟩ := Option.isSome_iff_exists.mp hex.2
      rw [fileName, if_neg hn] at hfd
      cases fd with
      | parquetFile t =>
        have hres : fetchOne net fs name url =
            (.error .RetrievalFailure, fs, []) := by
          simp [fetchOne, hn, FS.pathExists, hdir, hfd]
        rw [hres] at h
        exact absurd h (by simp)
      | csvFile d =>
        have hres : fetchOne net fs name url =
            (.ok ⟨.pandas, readCsvData d⟩, fs, []) := by
          simp [fetchOne, hn, FS.pathExists, hdir, hfd]
        rw [hres] at h
        simp only [Prod.mk.injEq, Except.ok.injEq] at h
        obtain ⟨hdf, hfs, hl⟩ := h
        subst hfs
        refine ⟨hdir, .csvFile d, ?_, ?_⟩
        · rw [fileName, if_neg hn]
          exact hfd
        · rw [storesTable, if_neg hn]
          exact ⟨d, rfl, by rw [← hdf]⟩
    · have hmiss : fs.pathExists (fileName name) = false := by simpa using hex
      by_cases hok : netOkFor net name url
      · by_cases hrw : fs.dirExists = true ∧ fs.writable = true
        · rw [netOkFor, if_neg hn] at hok
          obtain ⟨d, hnet⟩ := hok
          rw [fileName, if_neg hn] at hmiss
          rw [fetchOne_miss_csv hn hmiss hnet hrw.1 hrw.2] at h
          simp only [Prod.mk.injEq, Except.ok.injEq] at h
          obtain ⟨hdf, hfs, hl⟩ := h
          subst hfs
          refine ⟨hrw.1, .csvFile (writeCsvData (readCsvData d)), ?_, ?_⟩
          · rw [fileName, if_neg hn]
            simp [FS.lookup, List.lookup]
          · rw [storesTable, if_neg hn]
            exact ⟨writeCsvData (readCsvData d), rfl,
              by rw [readCsvData_writeCsvData, ← hdf]⟩
        · rw [fetchOne_miss_nowrite hmiss hok hrw] at h
          exact absurd h (by simp)
      · rw [fetchOne_miss_badnet hmiss hok] at h
        exact absurd h (by simp)

/-- Shape of any successful call: the bundle has exactly the three
registry keys in order, the directory exists, and each dataset's cache
file stores the returned table at value level. -/
theorem fetch_ok_shape {net : Net} {fs : FS} {b : List (String × DataFrame)}
    {fs1 : FS} {log : List String}
    (h : fetch_bqss_data net fs = (.ok b, fs1, log)) :
    ∃ df1 df2 df3,
      b = [("valeur", df1), ("finess", df2), ("metadata", df3)] ∧
      fs1.dirExists = true ∧
      (∃ fd, fs1.lookup "valeur.csv" = some fd ∧
        storesTable "valeur" fd df1.table) ∧
      (∃ fd, fs1.lookup "finess.parquet" = some fd ∧
        storesTable "finess" fd df2.table) ∧
      (∃ fd, fs1.lookup "metadata.csv" = some fd ∧
        storesTable "metadata" fd df3.table) := by
  rw [fetch_bqss_data, registry] at h
  rcases h1 : fetchOne net fs "valeur" valeurUrl with ⟨r1, fsa, l1⟩
  cases r1 with
  | error e => simp [fetchLoop, h1] at h
  | ok df1 =>
    simp only [fetchLoop, h1, List.nil_append] at h
    rcases h2 : fetchOne net fsa "finess" finessUrl with ⟨r2, fsb, l2⟩
    cases r2 with
    | error e => simp [fetchLoop, h2] at h
    | ok df2 =>
      simp only [fetchLoop, h2] at h
      rcases h3 : fetchOne net fsb "metadata" metadataUrl with ⟨r3, fsc, l3⟩
      cases r3 with
      | error e => simp [fetchLoop, h3] at h
      | ok df3 =>
        simp only [fetchLoop, h3, List.cons_append, List.nil_append,
          Prod.mk.injEq, Except.ok.injEq] at h
        obtain ⟨hb, hfs, hlog⟩ := h
        subst hfs
        have e2 := fetchOne_effects net fsa "finess" finessUrl
        rw [h2] at e2
        have e3 := fetchOne_effects net fsb "metadata" metadataUrl
        rw [h3] at e3
        refine ⟨df1, df2, df3, hb.symm, (fetchOne_ok h3).1, ?_, ?_, ?_⟩
        · obtain ⟨-, fd, hfd, hst⟩ := fetchOne_ok h1
          have hname : fileName "valeur" = "valeur.csv" := rfl
          rw [hname] at hfd
          exact ⟨fd, e3.2.2.1 _ _ (e2.2.2.1 _ _ hfd), hst⟩
        · obtain ⟨-, fd, hfd, hst⟩ := fetchOne_ok h2
          have hname : fileName "finess" = "finess.parquet" := rfl
          rw [hname] at hfd
          exact ⟨fd, e3.2.2.1 _ _ hfd, hst⟩
        · obtain ⟨-, fd, hfd, hst⟩ := fetchOne_ok h3
          have hname : fileName "metadata" = "metadata.csv" := rfl
          rw [hname] at hfd
          exact ⟨fd, hfd, hst⟩

/-- Claim C3: idempotence.  After one successful call, any further call
on the resulting cache state succeeds without touching the network,
leaves the state unchanged (so all later calls behave identically), and
returns a bundle with the same keys and value-identical tables. -/
theorem c3_idempotent (net : Net) (fs : FS)
    (b1 : List (String × DataFrame)) (fs1 : FS) (log1 : List String)
    (h : fetch_bqss_data net fs = (.ok b1, fs1, log1)) :
    ∃ b2, fetch_bqss_data net fs1 = (.ok b2, fs1, []) ∧
      b2.map (fun e => (e.1, e.2.table)) =
        b1.map (fun e => (e.1, e.2.table)) := by
  obtain ⟨df1, df2, df3, hb, hdir, ⟨fdv, hlv, hsv⟩, ⟨fdf, hlf, hsf⟩,
    ⟨fdm, hlm, hsm⟩⟩ := fetch_ok_shape h
  rw [storesTable, if_neg (by decide)] at hsv
  rw [storesTable, if_pos rfl] at hsf
  rw [storesTable, if_neg (by decide)] at hsm
  obtain ⟨dv, rfl, hdv⟩ := hsv
  obtain ⟨dm, rfl, hdm⟩ := hsm
  subst hsf
  refine ⟨_, run_all_cached net fs1 dv df2.table dm hdir hlv hlf hlm, ?_⟩
  rw [hb]
  simp [hdv, hdm]

/-- The cache state produced by the first successful call of the C3
witness scenario. -/
def fsAfterFirst : FS :=
  ⟨true, true,
    [("metadata.csv", .csvFile (writeCsvData (readCsvData sampleCsv2))),
     ("finess.parquet", .parquetFile sampleTable),
     ("valeur.csv", .csvFile (writeCsvData (readCsvData sampleCsv)))]⟩

/-- The bundle returned by the first call of the C3 witness scenario. -/
def bundleFirst : List (String × DataFrame) :=
  [("valeur", ⟨.pandas, readCsvData sampleCsv⟩),
   ("finess", ⟨.pandas, sampleTable⟩),
   ("metadata", ⟨.pandas, readCsvData sampleCsv2⟩)]

/-- Witness for C3 at a concrete first run. -/
theorem c3_idempotent_witness :
    ∃ b2, fetch_bqss_data netAll fsAfterFirst = (.ok b2, fsAfterFirst, []) ∧
      b2.map (fun e => (e.1, e.2.table)) =
        bundleFirst.map (fun e => (e.1, e.2.table)) :=
  c3_idempotent netAll fsEmpty bundleFirst fsAfterFirst
    [valeurUrl, finessUrl, metadataUrl] rfl

/-- Claim C4: when the remote fetch of the second dataset fails after
the first dataset was downloaded and cached in the same call, the whole
call fails with no result bundle, while the cache file written for the
first dataset remains on disk untouched (no rollback). -/
theorem c4_partial_failure_keeps_earlier_files (net : Net) (fs : FS)
    (dv : CsvData)
    (hdir : fs.dirExists = true) (hwr : fs.writable = true)
    (hv : fs.lookup "valeur.csv" = none)
    (hf : fs.lookup "finess.parquet" = none)
    (hnv : net valeurUrl = some (.csvRes dv))
    (hbadf : ∀ t, net finessUrl ≠ some (.parquetRes t)) :
    fetch_bqss_data net fs =
      (.error .RetrievalFailure,
        { fs with files :=
            ("valeur.csv", .csvFile (writeCsvData (readCsvData dv))) :: fs.files },
        [valeurUrl, finessUrl]) := by
  have hmiss1 : fs.pathExists ("valeur" ++ ".csv") = false := by
    simp [FS.pathExists, hv]
  have h1 := fetchOne_miss_csv
    (show ("valeur" : String) ≠ "finess" by decide) hmiss1 hnv hdir hwr
  have hf2 : List.lookup "finess.parquet" fs.files = none := hf
  have hmiss2 :
      FS.pathExists
        { fs with files :=
            ("valeur" ++ ".csv",
              .csvFile (writeCsvData (readCsvData dv))) :: fs.files }
        (fileName "finess") = false := by
    simp [FS.pathExists, FS.lookup, List.lookup, fileName, hf2]
  have hbad : ¬ netOkFor net "finess" finessUrl := by
    rw [netOkFor, if_pos rfl]
    rintro ⟨t, ht⟩
    exact hbadf t ht
  have h2 := fetchOne_miss_badnet hmiss2 hbad
  rw [fetch_bqss_data, registry]
  simp only [fetchLoop, h1, h2, List.nil_append]
  simp

/-- A network oracle on which only the `valeur` URL is reachable. -/
def netValeurOnly : Net := fun u =>
  if u = valeurUrl then some (.csvRes sampleCsv) else none

/-- Witness for C4 at a concrete partially-reachable network. -/
theorem c4_partial_failure_keeps_earlier_files_witness :
    fetch_bqss_data netValeurOnly fsEmpty =
      (.error .RetrievalFailure,
        { fsEmpty with files :=
            ("valeur.csv", .csvFile (writeCsvData (readCsvData sampleCsv))) ::
            fsEmpty.files },
        [valeurUrl, finessUrl]) :=
  c4_partial_failure_keeps_earlier_files netValeurOnly fsEmpty sampleCsv
    rfl rfl rfl rfl (by decide)
    (by
      intro t h
      rw [show netValeurOnly finessUrl = none from rfl] at h
      exact Option.noConfusion h)

/-- Claim C6: with exactly one of the three cache files absent (and the
other two present and well-formed), the call succeeds, accesses exactly
the missing dataset's URL, and the final directory contents are the old
files plus exactly one new file for the missing dataset — the two
pre-existing files are untouched. -/
theorem c6_only_missing_fetched (net : Net) (fs : FS) (mname murl : String)
    (hmem : (mname, murl) ∈ registry)
    (hdir : fs.dirExists = true) (hwr : fs.writable = true)
    (habs : fs.lookup (fileName mname) = none)
    (hpres : ∀ pr ∈ registry, pr.1 ≠ mname →
      ∃ fd, fs.lookup (fileName pr.1) = some fd ∧ wellFormed pr.1 fd)
    (hok : netOkFor net mname murl) :
    ∃ fd b,
      fetch_bqss_data net fs =
        (.ok b, { fs with files := (fileName mname, fd) :: fs.files },
          [murl]) := by
  rw [registry] at hmem
  simp only [List.mem_cons, List.not_mem_nil, or_false, Prod.mk.injEq] at hmem
  rcases hmem with ⟨rfl, rfl⟩ | ⟨rfl, rfl⟩ | ⟨rfl, rfl⟩
  · -- valeur missing, finess and metadata cached
    rw [netOkFor, if_neg (by decide)] at hok
    obtain ⟨dv, hnv⟩ := hok
    obtain ⟨fdf, hlf, hwff⟩ := hpres ("finess", finessUrl) (by simp [registry])
      (by decide)
    rw [wellFormed, if_pos rfl] at hwff
    obtain ⟨tf, rfl⟩ := hwff
    obtain ⟨fdm, hlm, hwfm⟩ := hpres ("metadata", metadataUrl)
      (by simp [registry]) (by decide)
    rw [wellFormed, if_neg (by decide)] at hwfm
    obtain ⟨dm, rfl⟩ := hwfm
    have habs2 : List.lookup "valeur.csv" fs.files = none := habs
    have hlf2 : List.lookup "finess.parquet" fs.files =
      some (.parquetFile tf) := hlf
    have hlm2 : List.lookup "metadata.csv" fs.files = some (.csvFile dm) := hlm
    have hmiss1 : fs.pathExists ("valeur" ++ ".csv") = false := by
      simp [FS.pathExists, FS.lookup, habs2]
    have h1 := fetchOne_miss_csv
      (show ("valeur" : String) ≠ "finess" by decide) hmiss1 hnv hdir hwr
    have h2 : fetchOne net
        { fs with files :=
            ("valeur" ++ ".csv",
              .csvFile (writeCsvData (readCsvData dv))) :: fs.files }
        "finess" finessUrl =
        (.ok ⟨.polars, tf⟩,
          { fs with files :=
              ("valeur" ++ ".csv",
                .csvFile (writeCsvData (readCsvData dv))) :: fs.files },
          []) := by
      simp [fetchOne, FS.pathExists, FS.lookup, List.lookup, hdir, hlf2]
    have h3 : fetchOne net
        { fs with files :=
            ("valeur" ++ ".csv",
              .csvFile (writeCsvData (readCsvData dv))) :: fs.files }
        "metadata" metadataUrl =
        (.ok ⟨.pandas, readCsvData dm⟩,
          { fs with files :=
              ("valeur" ++ ".csv",
                .csvFile (writeCsvData (readCsvData dv))) :: fs.files },
          []) := by
      simp [fetchOne, FS.pathExists, FS.lookup, List.lookup, hdir, hlm2]
    refine ⟨.csvFile (writeCsvData (readCsvData dv)),
      [("valeur", ⟨.pandas, readCsvData dv⟩), ("finess", ⟨.polars, tf⟩),
        ("metadata", ⟨.pandas, readCsvData dm⟩)], ?_⟩
    rw [fetch_bqss_data, registry]
    simp only [fetchLoop, h1, h2, h3, List.nil_append, List.append_nil]
    simp [fileName]
  · -- finess missing, valeur and metadata cached
    rw [netOkFor, if_pos rfl] at hok
    obtain ⟨tf, hnf⟩ := hok
    obtain ⟨fdv, hlv, hwfv⟩ := hpres ("valeur", valeurUrl) (by simp [registry])
      (by decide)
    rw [wellFormed, if_neg (by decide)] at hwfv
    obtain ⟨dv, rfl⟩ := hwfv
    obtain ⟨fdm, hlm, hwfm⟩ := hpres ("metadata", metadataUrl)
      (by simp [registry]) (by decide)
    rw [wellFormed, if_neg (by decide)] at hwfm
    obtain ⟨dm, rfl⟩ := hwfm
    have habs2 : List.lookup "finess.parquet" fs.files = none := habs
    have hlv2 : List.lookup "valeur.csv" fs.files = some (.csvFile dv) := hlv
    have hlm2 : List.lookup "metadata.csv" fs.files = some (.csvFile dm) := hlm
    have h1 : fetchOne net fs "valeur" valeurUrl =
        (.ok ⟨.pandas, readCsvData dv⟩, fs, []) := by
      simp [fetchOne, FS.pathExists, FS.lookup, hdir, hlv2]
    have hmiss2 : fs.pathExists ("finess" ++ ".parquet") = false := by
      simp [FS.pathExists, FS.lookup, habs2]
    have h2 := fetchOne_miss_parquet hmiss2 hnf hdir hwr
    have h3 : fetchOne net
        { fs with files :=
            ("finess" ++ ".parquet", .parquetFile tf) :: fs.files }
        "metadata" metadataUrl =
        (.ok ⟨.pandas, readCsvData dm⟩,
          { fs with files :=
              ("finess" ++ ".parquet", .parquetFile tf) :: fs.files },
          []) := by
      simp [fetchOne, FS.pathExists, FS.lookup, List.lookup, hdir, hlm2]
    refine ⟨.parquetFile tf,
      [("valeur", ⟨.pandas, readCsvData dv⟩), ("finess", ⟨.pandas, tf⟩),
        ("metadata", ⟨.pandas, readCsvData dm⟩)], ?_⟩
    rw [fetch_bqss_data, registry]
    simp only [fetchLoop, h1, h2, h3, List.nil_append, List.append_nil]
    simp [fileName]
  · -- metadata missing, valeur and finess cached
    rw [netOkFor, if_neg (by decide)] at hok
    obtain ⟨dm, hnm⟩ := hok
    obtain ⟨fdv, hlv, hwfv⟩ := hpres ("valeur", valeurUrl) (by simp [registry])
      (by decide)
    rw [wellFormed, if_neg (by decide)] at hwfv
    obtain ⟨dv, rfl⟩ := hwfv
    obtain ⟨fdf, hlf, hwff⟩ := hpres ("finess", finessUrl) (by simp [registry])
      (by decide)
    rw [wellFormed, if_pos rfl] at hwff
    obtain ⟨tf, rfl⟩ := hwff
    have habs2 : List.lookup "metadata.csv" fs.files = none := habs
    have hlv2 : List.lookup "valeur.csv" fs.files = some (.csvFile dv) := hlv
    have hlf2 : List.lookup "finess.parquet" fs.files =
      some (.parquetFile tf) := hlf
    have h1 : fetchOne net fs "valeur" valeurUrl =
        (.ok ⟨.pandas, readCsvData dv⟩, fs, []) := by
      simp [fetchOne, FS.pathExists, FS.lookup, hdir, hlv2]
    have h2 : fetchOne net fs "finess" finessUrl =
        (.ok ⟨.polars, tf⟩, fs, []) := by
      simp [fetchOne, FS.pathExists, FS.lookup, hdir, hlf2]
    have hmiss3 : fs.pathExists ("metadata" ++ ".csv") = false := by
      simp [FS.pathExists, FS.lookup, habs2]
    have h3 := fetchOne_miss_csv
      (show ("metadata" : String) ≠ "finess" by decide) hmiss3 hnm hdir hwr
    refine ⟨.csvFile (writeCsvData (readCsvData dm)),
      [("valeur", ⟨.pandas, readCsvData dv⟩), ("finess", ⟨.polars, tf⟩),
        ("metadata", ⟨.pandas, readCsvData dm⟩)], ?_⟩
    rw [fetch_bqss_data, registry]
    simp only [fetchLoop, h1, h2, h3, List.nil_append, List.append_nil]
    simp [fileName]

/-- A cache directory holding only the `valeur` and `metadata` files. -/
def fsTwoCached : FS :=
  ⟨true, true,
    [("valeur.csv", .csvFile sampleCsv),
     ("metadata.csv", .csvFile sampleCsv2)]⟩

/-- Witness for C6 with the `finess` file missing. -/
theorem c6_only_missing_fetched_witness :
    ∃ fd b,
      fetch_bqss_data netAll fsTwoCached =
        (.ok b,
          { fsTwoCached with
            files := (fileName "finess", fd) :: fsTwoCached.files },
          [finessUrl]) :=
  c6_only_missing_fetched netAll fsTwoCached "finess" finessUrl
    (by simp [registry]) rfl rfl rfl
    (by
      intro pr hpr hne
      rw [registry] at hpr
      simp only [List.mem_cons, List.not_mem_nil, or_false] at hpr
      rcases hpr with rfl | rfl | rfl
      · exact ⟨.csvFile sampleCsv, rfl, by rw [wellFormed]; simp⟩
      · exact absurd rfl hne
      · exact ⟨.csvFile sampleCsv2, rfl, by rw [wellFormed]; simp⟩)
    (by rw [netOkFor]; simp; exact ⟨sampleTable, by decide⟩)

/-- The registered dataset names. -/
theorem reg_names {pr : String × String} (h : pr ∈ registry) :
    pr.1 = "valeur" ∨ pr.1 = "finess" ∨ pr.1 = "metadata" := by
  rw [registry] at h
  simp only [List.mem_cons, List.not_mem_nil, or_false] at h
  rcases h with rfl | rfl | rfl <;> simp

theorem fileName_inj_reg {a b : String}
    (ha : a = "valeur" ∨ a = "finess" ∨ a = "metadata")
    (hb : b = "valeur" ∨ b = "finess" ∨ b = "metadata")
    (h : fileName a = fileName b) : a = b := by
  rcases ha with rfl | rfl | rfl <;> rcases hb with rfl | rfl | rfl <;>
    revert h <;> decide

theorem reg_fst_inj {pr qr : String × String} (hp : pr ∈ registry)
    (hq : qr ∈ registry) (h : pr.1 = qr.1) : pr = qr := by
  rw [registry] at hp hq
  simp only [List.mem_cons, List.not_mem_nil, or_false] at hp hq
  rcases hp with rfl | rfl | rfl <;> rcases hq with rfl | rfl | rfl <;> simp_all

/-- Every cache file present for a registered dataset in `l` is
well-formed for its reader. -/
def regWf (l : List (String × String)) (fs : FS) : Prop :=
  ∀ pr ∈ l, ∀ fd, fs.lookup (fileName pr.1) = some fd → wellFormed pr.1 fd

theorem lookup_cons_self {q : String} {d : FileData}
    {fl : List (String × FileData)} :
    List.lookup q ((q, d) :: fl) = some d := by
  simp [List.lookup]

theorem pathExists_cons_mono {fs : FS} {k : String} {fd : FileData} {q : String}
    (h : fs.pathExists q = true) :
    FS.pathExists { fs with files := (k, fd) :: fs.files } q = true := by
  rw [FS.pathExists, Bool.and_eq_true] at h ⊢
  refine ⟨h.1, ?_⟩
  by_cases hqk : q = k
  · subst hqk
    show (List.lookup q ((q, fd) :: fs.files)).isSome = true
    rw [lookup_cons_self]
    rfl
  · show (List.lookup q ((k, fd) :: fs.files)).isSome = true
    rw [lookup_cons_ne hqk]
    exact h.2

theorem regWf_write {l : List (String × String)} {fs : FS} {name : String}
    {fd : FileData}
    (hsubl : ∀ pr ∈ l, pr ∈ registry)
    (hnames : name = "valeur" ∨ name = "finess" ∨ name = "metadata")
    (hwffd : wellFormed name fd)
    (hinv : regWf l fs) :
    regWf l { fs with files := (fileName name, fd) :: fs.files } := by
  intro pr hpr fd0 h0
  by_cases hcol : fileName pr.1 = fileName name
  · have hpn : pr.1 = name :=
      fileName_inj_reg (reg_names (hsubl pr hpr)) hnames hcol
    rw [show FS.lookup { fs with files := (fileName name, fd) :: fs.files }
        (fileName pr.1) = some fd from by
      show List.lookup (fileName pr.1) _ = some fd
      rw [hcol]
      exact lookup_cons_self] at h0
    injection h0 with h0
    rw [hpn, ← h0]
    exact hwffd
  · rw [show FS.lookup { fs with files := (fileName name, fd) :: fs.files }
        (fileName pr.1) = fs.lookup (fileName pr.1) from
      lookup_cons_ne hcol] at h0
    exact hinv pr hpr fd0 h0

/-- A cache miss with a good network response and a writable directory
succeeds and writes a well-formed file under the dataset's file name. -/
theorem fetchOne_miss_ok {net : Net} {fs : FS} {name url : String}
    (hmiss : fs.pathExists (fileName name) = false)
    (hok : netOkFor net name url)
    (hdir : fs.dirExists = true) (hwr : fs.writable = true) :
    ∃ df fd, fetchOne net fs name url =
      (.ok df, { fs with files := (fileName name, fd) :: fs.files }, [url]) ∧
      wellFormed name fd := by
  by_cases hn : name = "finess"
  · subst hn
    rw [netOkFor, if_pos rfl] at hok
    obtain ⟨t, hnet⟩ := hok
    rw [fileName, if_pos rfl] at hmiss ⊢
    exact ⟨⟨.pandas, t⟩, .parquetFile t,
      fetchOne_miss_parquet hmiss hnet hdir hwr,
      by rw [wellFormed, if_pos rfl]; exact ⟨t, rfl⟩⟩
  · rw [netOkFor, if_neg hn] at hok
    obtain ⟨d, hnet⟩ := hok
    rw [fileName, if_neg hn] at hmiss ⊢
    exact ⟨⟨.pandas, readCsvData d⟩, .csvFile (writeCsvData (readCsvData d)),
      fetchOne_miss_csv hn hmiss hnet hdir hwr,
      by rw [wellFormed, if_neg hn]; exact ⟨_, rfl⟩⟩

/-- If the directory is writable and every cache-missing registered
dataset has a good network response, the loop succeeds. -/
theorem fetchLoop_all_ok (net : Net) (l : List (String × String)) :
    (∀ pr ∈ l, pr ∈ registry) →
    ∀ (fs : FS) (acc : List (String × DataFrame)) (log : List String),
      fs.dirExists = true → fs.writable = true →
      regWf l fs →
      (∀ pr ∈ l, fs.pathExists (fileName pr.1) = false →
        netOkFor net pr.1 pr.2) →
      ∃ b, (fetchLoop net l fs acc log).1 = .ok b := by
  induction l with
  | nil =>
    intro _ fs acc log _ _ _ _
    exact ⟨acc, rfl⟩
  | cons head tail ih =>
    intro hsub fs acc log hdir hwr hwf hnet
    obtain ⟨name, url⟩ := head
    by_cases hex : fs.pathExists (fileName name) = true
    · obtain ⟨fd, hfd⟩ : ∃ fd, fs.lookup (fileName name) = some fd := by
        rw [FS.pathExists, Bool.and_eq_true] at hex
        exact Option.isSome_iff_exists.mp hex.2
      have hwfh := hwf (name, url) (List.mem_cons_self _ _) fd hfd
      obtain ⟨df, heq, -, -⟩ := @fetchOne_hit net fs name url fd hdir hfd hwfh
      simp only [fetchLoop, heq]
      exact ih (fun pr h => hsub pr (List.mem_cons_of_mem _ h)) fs _ _ hdir hwr
        (fun pr h => hwf pr (List.mem_cons_of_mem _ h))
        (fun pr h => hnet pr (List.mem_cons_of_mem _ h))
    · have hmiss : fs.pathExists (fileName name) = false := by simpa using hex
      have hok := hnet (name, url) (List.mem_cons_self _ _) hmiss
      obtain ⟨df, fd, heq, hwffd⟩ := fetchOne_miss_ok hmiss hok hdir hwr
      simp only [fetchLoop, heq]
      refine ih (fun pr h => hsub pr (List.mem_cons_of_mem _ h)) _ _ _
        hdir hwr ?_ ?_
      · exact regWf_write (fun pr h => hsub pr (List.mem_cons_of_mem _ h))
          (reg_names (hsub (name, url) (List.mem_cons_self _ _)))
          hwffd (fun pr h => hwf pr (List.mem_cons_of_mem _ h))
      · intro pr hpr hmiss2
        apply hnet pr (List.mem_cons_of_mem _ hpr)
        by_cases hx : fs.pathExists (fileName pr.1) = true
        · rw [pathExists_cons_mono hx] at hmiss2
          exact Bool.noConfusion hmiss2
        · simpa using hx

/-- With the directory missing or read-only, a hit-only prefix followed
by the first actual miss (whose download succeeds) fails with a
StorageFailure — the call never silently succeeds. -/
theorem fetchLoop_storage_complete (net : Net) (l : List (String × String)) :
    ∀ (fs : FS) (acc : List (String × DataFrame)) (log : List String),
      ¬ (fs.dirExists = true ∧ fs.writable = true) →
      regWf l fs →
      (∀ pr ∈ l, fs.pathExists (fileName pr.1) = false →
        netOkFor net pr.1 pr.2) →
      (∃ pr ∈ l, fs.pathExists (fileName pr.1) = false) →
      (fetchLoop net l fs acc log).1 = .error .StorageFailure := by
  induction l with
  | nil =>
    intro fs acc log _ _ _ hex
    obtain ⟨pr, hpr, -⟩ := hex
    exact absurd hpr (List.not_mem_nil pr)
  | cons head tail ih =>
    intro fs acc log hrw hwf hnet hex
    obtain ⟨name, url⟩ := head
    by_cases hhit : fs.pathExists (fileName name) = true
    · obtain ⟨fd, hfd⟩ : ∃ fd, fs.lookup (fileName name) = some fd := by
        rw [FS.pathExists, Bool.and_eq_true] at hhit
        exact Option.isSome_iff_exists.mp hhit.2
      have hdir : fs.dirExists = true := by
        rw [FS.pathExists, Bool.and_eq_true] at hhit
        exact hhit.1
      have hwfh := hwf (name, url) (List.mem_cons_self _ _) fd hfd
      obtain ⟨df, heq, -, -⟩ := @fetchOne_hit net fs name url fd hdir hfd hwfh
      simp only [fetchLoop, heq]
      refine ih fs _ _ hrw
        (fun pr h => hwf pr (List.mem_cons_of_mem _ h))
        (fun pr h => hnet pr (List.mem_cons_of_mem _ h)) ?_
      obtain ⟨pr, hpr, hprm⟩ := hex
      rcases List.mem_cons.mp hpr with heq2 | htail
      · rw [heq2] at hprm
        rw [hprm] at hhit
        exact absurd hhit Bool.noConfusion
      · exact ⟨pr, htail, hprm⟩
    · have hmiss : fs.pathExists (fileName name) = false := by simpa using hhit
      have hok := hnet (name, url) (List.mem_cons_self _ _) hmiss
      rw [fetchLoop, fetchOne_miss_nowrite hmiss hok hrw]

/-- When the directory is fine, a registered dataset whose cache file
is absent and whose remote is bad makes the loop fail with a
RetrievalFailure. -/
theorem fetchLoop_retrieval_complete (net : Net) (l : List (String × String)) :
    (∀ pr ∈ l, pr ∈ registry) →
    ∀ (fs : FS) (acc : List (String × DataFrame)) (log : List String),
      fs.dirExists = true → fs.writable = true →
      regWf l fs →
      (∃ pr ∈ l, fs.pathExists (fileName pr.1) = false ∧
        ¬ netOkFor net pr.1 pr.2) →
      (fetchLoop net l fs acc log).1 = .error .RetrievalFailure := by
  induction l with
  | nil =>
    intro _ fs acc log _ _ _ hex
    obtain ⟨pr, hpr, -⟩ := hex
    exact absurd hpr (List.not_mem_nil pr)
  | cons head tail ih =>
    intro hsub fs acc log hdir hwr hwf hex
    obtain ⟨name, url⟩ := head
    by_cases hhit : fs.pathExists (fileName name) = true
    · obtain ⟨fd, hfd⟩ : ∃ fd, fs.lookup (fileName name) = some fd := by
        rw [FS.pathExists, Bool.and_eq_true] at hhit
        exact Option.isSome_iff_exists.mp hhit.2
      have hwfh := hwf (name, url) (List.mem_cons_self _ _) fd hfd
      obtain ⟨df, heq, -, -⟩ := @fetchOne_hit net fs name url fd hdir hfd hwfh
      simp only [fetchLoop, heq]
      refine ih (fun pr h => hsub pr (List.mem_cons_of_mem _ h)) fs _ _
        hdir hwr (fun pr h => hwf pr (List.mem_cons_of_mem _ h)) ?_
      obtain ⟨pr, hpr, hprm, hprb⟩ := hex
      rcases List.mem_cons.mp hpr with heq2 | htail
      · rw [heq2] at hprm
        rw [hprm] at hhit
        exact absurd hhit Bool.noConfusion
      · exact ⟨pr, htail, hprm, hprb⟩
    · have hmiss : fs.pathExists (fileName name) = false := by simpa using hhit
      by_cases hok : netOkFor net name url
      · obtain ⟨df, fd, heq, hwffd⟩ := fetchOne_miss_ok hmiss hok hdir hwr
        simp only [fetchLoop, heq]
        refine ih (fun pr h => hsub pr (List.mem_cons_of_mem _ h)) _ _ _
          hdir hwr
          (regWf_write (fun pr h => hsub pr (List.mem_cons_of_mem _ h))
            (reg_names (hsub (name, url) (List.mem_cons_self _ _)))
            hwffd (fun pr h => hwf pr (List.mem_cons_of_mem _ h))) ?_
        obtain ⟨pr, hpr, hprm, hprb⟩ := hex
        rcases List.mem_cons.mp hpr with heq2 | htail
        · rw [heq2] at hprb
          exact absurd hok hprb
        · refine ⟨pr, htail, ?_, hprb⟩
          by_cases hcol : fileName pr.1 = fileName name
          · have hpn : pr.1 = name :=
              fileName_inj_reg
                (reg_names (hsub pr (List.mem_cons_of_mem _ htail)))
                (reg_names (hsub (name, url) (List.mem_cons_self _ _))) hcol
            have hpr2 : pr = (name, url) :=
              reg_fst_inj (hsub pr (List.mem_cons_of_mem _ htail))
                (hsub (name, url) (List.mem_cons_self _ _)) hpn
            rw [hpr2] at hprb
            exact absurd hok hprb
          · show FS.pathExists _ (fileName pr.1) = false
            rw [show FS.pathExists
                { fs with files := (fileName name, fd) :: fs.files }
                (fileName pr.1) =
                (fs.dirExists && (List.lookup (fileName pr.1)
                  ((fileName name, fd) :: fs.files)).isSome) from rfl,
              lookup_cons_ne hcol]
            exact hprm
      · rw [fetchLoop, fetchOne_miss_badnet hmiss hok]

/-- A StorageFailure is only ever raised when the cache directory is
missing or read-only. -/
theorem fetchLoop_storage_sound (net : Net) (l : List (String × String)) :
    ∀ (fs : FS) (acc : List (String × DataFrame)) (log : List String),
      (fetchLoop net l fs acc log).1 = .error .StorageFailure →
      ¬ (fs.dirExists = true ∧ fs.writable = true) := by
  induction l with
  | nil =>
    intro fs acc log h
    exact absurd h (by simp [fetchLoop])
  | cons head tail ih =>
    intro fs acc log h
    obtain ⟨name, url⟩ := head
    by_cases hex : fs.pathExists (fileName name) = true
    · obtain ⟨r, heq, hkind⟩ := @fetchOne_hit_any net fs name url hex
      cases r with
      | ok df =>
        simp only [fetchLoop, heq] at h
        exact ih fs _ _ h
      | error e =>
        simp only [fetchLoop, heq] at h
        have : e = Err.RetrievalFailure := hkind e rfl
        subst this
        simp at h
    · have hmiss : fs.pathExists (fileName name) = false := by simpa using hex
      by_cases hok : netOkFor net name url
      · by_cases hrw : fs.dirExists = true ∧ fs.writable = true
        · obtain ⟨df, fd, heq, -⟩ := fetchOne_miss_ok hmiss hok hrw.1 hrw.2
          simp only [fetchLoop, heq] at h
          have := ih _ _ _ h
          exact absurd hrw this
        · exact hrw
      · rw [fetchLoop, fetchOne_miss_badnet hmiss hok] at h
        simp at h

/-- A RetrievalFailure is only ever raised when some registered dataset
misses the cache and its remote resource is unreachable or has the
wrong format. -/
theorem fetchLoop_retrieval_sound (net : Net) (l : List (String × String)) :
    (∀ pr ∈ l, pr ∈ registry) →
    ∀ (fs : FS) (acc : List (String × DataFrame)) (log : List String),
      regWf l fs →
      (fetchLoop net l fs acc log).1 = .error .RetrievalFailure →
      ∃ pr ∈ l, fs.pathExists (fileName pr.1) = false ∧
        ¬ netOkFor net pr.1 pr.2 := by
  induction l with
  | nil =>
    intro _ fs acc log _ h
    exact absurd h (by simp [fetchLoop])
  | cons head tail ih =>
    intro hsub fs acc log hwf h
    obtain ⟨name, url⟩ := head
    by_cases hex : fs.pathExists (fileName name) = true
    · obtain ⟨fd, hfd⟩ : ∃ fd, fs.lookup (fileName name) = some fd := by
        rw [FS.pathExists, Bool.and_eq_true] at hex
        exact Option.isSome_iff_exists.mp hex.2
      have hdir : fs.dirExists = true := by
        rw [FS.pathExists, Bool.and_eq_true] at hex
        exact hex.1
      have hwfh := hwf (name, url) (List.mem_cons_self _ _) fd hfd
      obtain ⟨df, heq, -, -⟩ := @fetchOne_hit net fs name url fd hdir hfd hwfh
      simp only [fetchLoop, heq] at h
      obtain ⟨pr, hpr, hm, hb⟩ := ih
        (fun pr h2 => hsub pr (List.mem_cons_of_mem _ h2)) fs _ _
        (fun pr h2 => hwf pr (List.mem_cons_of_mem _ h2)) h
      exact ⟨pr, List.mem_cons_of_mem _ hpr, hm, hb⟩
    · have hmiss : fs.pathExists (fileName name) = false := by simpa using hex
      by_cases hok : netOkFor net name url
      · by_cases hrw : fs.dirExists = true ∧ fs.writable = true
        · obtain ⟨df, fd, heq, hwffd⟩ := fetchOne_miss_ok hmiss hok hrw.1 hrw.2
          simp only [fetchLoop, heq] at h
          obtain ⟨pr, hpr, hm, hb⟩ := ih
            (fun pr h2 => hsub pr (List.mem_cons_of_mem _ h2)) _ _ _
            (regWf_write (fun pr h2 => hsub pr (List.mem_cons_of_mem _ h2))
              (reg_names (hsub (name, url) (List.mem_cons_self _ _)))
              hwffd (fun pr h2 => hwf pr (List.mem_cons_of_mem _ h2))) h
          refine ⟨pr, List.mem_cons_of_mem _ hpr, ?_, hb⟩
          by_cases hx : fs.pathExists (fileName pr.1) = true
          · rw [pathExists_cons_mono hx] at hm
            exact Bool.noConfusion hm
          · simpa using hx
        · rw [fetchLoop, fetchOne_miss_nowrite hmiss hok hrw] at h
          simp at h
      · exact ⟨(name, url), List.mem_cons_self _ _, hmiss, hok⟩

theorem regWf_of_goodCache {fs : FS} (h : goodCache fs) : regWf registry fs := by
  intro pr hpr fd hfd
  refine h pr.1 ?_ fd hfd
  rcases reg_names hpr with h1 | h1 | h1 <;> rw [h1] <;> simp

/-- Claim C5: the call fails with exactly the two error kinds, and
raises them exactly under their conditions (given well-formed cached
files): a RetrievalFailure only when some cache-missing dataset's
remote resource is unreachable or unparseable, a StorageFailure only
when the directory is missing or unwritable; conversely a bad remote
under a good directory yields a RetrievalFailure, a bad directory with
a pending write never silently succeeds but yields a StorageFailure,
and with no failing condition the call succeeds. -/
theorem c5_error_kinds (net : Net) (fs : FS) (hgood : goodCache fs) :
    (∀ e, (fetch_bqss_data net fs).1 = .error e →
      e = .RetrievalFailure ∨ e = .StorageFailure) ∧
    ((fetch_bqss_data net fs).1 = .error .RetrievalFailure →
      ∃ pr ∈ registry, fs.pathExists (fileName pr.1) = false ∧
        ¬ netOkFor net pr.1 pr.2) ∧
    ((fetch_bqss_data net fs).1 = .error .StorageFailure →
      ¬ (fs.dirExists = true ∧ fs.writable = true)) ∧
    (¬ (fs.dirExists = true ∧ fs.writable = true) →
      (∀ pr ∈ registry, fs.pathExists (fileName pr.1) = false →
        netOkFor net pr.1 pr.2) →
      (∃ pr ∈ registry, fs.pathExists (fileName pr.1) = false) →
      (fetch_bqss_data net fs).1 = .error .StorageFailure) ∧
    (fs.dirExists = true → fs.writable = true →
      (∃ pr ∈ registry, fs.pathExists (fileName pr.1) = false ∧
        ¬ netOkFor net pr.1 pr.2) →
      (fetch_bqss_data net fs).1 = .error .RetrievalFailure) ∧
    (fs.dirExists = true → fs.writable = true →
      (∀ pr ∈ registry, fs.pathExists (fileName pr.1) = false →
        netOkFor net pr.1 pr.2) →
      ∃ b, (fetch_bqss_data net fs).1 = .ok b) := by
  refine ⟨?_, ?_, ?_, ?_, ?_, ?_⟩
  · intro e _
    cases e
    · exact Or.inl rfl
    · exact Or.inr rfl
  · intro h
    exact fetchLoop_retrieval_sound net registry (fun pr h2 => h2) fs [] []
      (regWf_of_goodCache hgood) h
  · intro h
    exact fetchLoop_storage_sound net registry fs [] [] h
  · intro hrw hnet hex
    exact fetchLoop_storage_complete net registry fs [] [] hrw
      (regWf_of_goodCache hgood) hnet hex
  · intro hdir hwr hex
    exact fetchLoop_retrieval_complete net registry (fun pr h2 => h2) fs [] []
      hdir hwr (regWf_of_goodCache hgood) hex
  · intro hdir hwr hnet
    exact fetchLoop_all_ok net registry (fun pr h2 => h2) fs [] []
      hdir hwr (regWf_of_goodCache hgood) hnet

theorem goodCache_fsAllCached : goodCache fsAllCached := by
  intro name hname fd hfd
  simp only [List.mem_cons, List.not_mem_nil, or_false] at hname
  rcases hname with rfl | rfl | rfl
  · rw [show fsAllCached.lookup (fileName "valeur") =
      some (.csvFile sampleCsv) from rfl] at hfd
    injection hfd with hfd
    rw [← hfd, wellFormed, if_neg (by decide)]
    exact ⟨_, rfl⟩
  · rw [show fsAllCached.lookup (fileName "finess") =
      some (.parquetFile sampleTable) from rfl] at hfd
    injection hfd with hfd
    rw [← hfd, wellFormed, if_pos rfl]
    exact ⟨_, rfl⟩
  · rw [show fsAllCached.lookup (fileName "metadata") =
      some (.csvFile sampleCsv2) from rfl] at hfd
    injection hfd with hfd
    rw [← hfd, wellFormed, if_neg (by decide)]
    exact ⟨_, rfl⟩

/-- Witness for C5 at a concrete well-formed cache state. -/
theorem c5_error_kinds_witness :
    (∀ e, (fetch_bqss_data netAll fsAllCached).1 = .error e →
      e = .RetrievalFailure ∨ e = .StorageFailure) ∧
    ((fetch_bqss_data netAll fsAllCached).1 = .error .RetrievalFailure →
      ∃ pr ∈ registry, fsAllCached.pathExists (fileName pr.1) = false ∧
        ¬ netOkFor netAll pr.1 pr.2) ∧
    ((fetch_bqss_data netAll fsAllCached).1 = .error .StorageFailure →
      ¬ (fsAllCached.dirExists = true ∧ fsAllCached.writable = true)) ∧
    (¬ (fsAllCached.dirExists = true ∧ fsAllCached.writable = true) →
      (∀ pr ∈ registry, fsAllCached.pathExists (fileName pr.1) = false →
        netOkFor netAll pr.1 pr.2) →
      (∃ pr ∈ registry, fsAllCached.pathExists (fileName pr.1) = false) →
      (fetch_bqss_data netAll fsAllCached).1 = .error .StorageFailure) ∧
    (fsAllCached.dirExists = true → fsAllCached.writable = true →
      (∃ pr ∈ registry, fsAllCached.pathExists (fileName pr.1) = false ∧
        ¬ netOkFor netAll pr.1 pr.2) →
      (fetch_bqss_data netAll fsAllCached).1 = .error .RetrievalFailure) ∧
    (fsAllCached.dirExists = true → fsAllCached.writable = true →
      (∀ pr ∈ registry, fsAllCached.pathExists (fileName pr.1) = false →
        netOkFor netAll pr.1 pr.2) →
      ∃ b, (fetch_bqss_data netAll fsAllCached).1 = .ok b) :=
  c5_error_kinds netAll fsAllCached goodCache_fsAllCached

/-- Claim C9: on a cache miss, the table inserted into the bundle is
the frame parsed directly from the network response (pandas engine,
network content) — not a re-read of the just-persisted file: a re-read
would give a polars frame for `finess` and the re-parsed serialization
for the CSV datasets, whereas the bundle holds the direct network
parses.  Any serialize-then-parse change therefore only shows up on
later calls. -/
theorem c9_miss_returns_network_parse (net : Net) (fs : FS)
    (dv : CsvData) (tf : Table) (dm : CsvData)
    (hdir : fs.dirExists = true) (hwr : fs.writable = true)
    (hv : fs.lookup "valeur.csv" = none)
    (hf : fs.lookup "finess.parquet" = none)
    (hm : fs.lookup "metadata.csv" = none)
    (hnv : net valeurUrl = some (.csvRes dv))
    (hnf : net finessUrl = some (.parquetRes tf))
    (hnm : net metadataUrl = some (.csvRes dm)) :
    (fetch_bqss_data net fs).1 =
      .ok [("valeur", ⟨.pandas, readCsvData dv⟩),
           ("finess", ⟨.pandas, tf⟩),
           ("metadata", ⟨.pandas, readCsvData dm⟩)] := by
  rw [run_all_miss net fs dv tf dm hdir hwr hv hf hm hnv hnf hnm]

/-- Witness for C9 at a concrete empty cache and live network. -/
theorem c9_miss_returns_network_parse_witness :
    (fetch_bqss_data netAll fsEmpty).1 =
      .ok [("valeur", ⟨.pandas, readCsvData sampleCsv⟩),
           ("finess", ⟨.pandas, sampleTable⟩),
           ("metadata", ⟨.pandas, readCsvData sampleCsv2⟩)] :=
  c9_miss_returns_network_parse netAll fsEmpty sampleCsv sampleTable sampleCsv2
    rfl rfl rfl rfl rfl (by decide) (by decide) (by decide)

/-- Claim C10: the fetcher never deletes, overwrites, or rewrites a
cache file that exists when the call starts: every pre-existing file is
looked up unchanged in the final state, whether the call succeeds or
fails. -/
theorem c10_no_overwrite (net : Net) (fs : FS) (p : String) (fd : FileData)
    (h : fs.lookup p = some fd) :
    (fetch_bqss_data net fs).2.1.lookup p = some fd :=
  (fetchLoop_effects net registry fs [] []).2.2.1 p fd h

/-- Witness for C10 at a concrete partially-cached state. -/
theorem c10_no_overwrite_witness :
    (fetch_bqss_data netAll fsTwoCached).2.1.lookup "valeur.csv" =
      some (.csvFile sampleCsv) :=
  c10_no_overwrite netAll fsTwoCached "valeur.csv" (.csvFile sampleCsv) rfl

/-- Claim C8: with `valeur` and `metadata` cached, two calls that
differ only in the presence of the `finess` cache file return `finess`
frames of different engines: the pandas parquet reader on a miss, the
polars parquet reader on a hit; the `valeur` and `metadata` frames are
pandas-engined on both paths. -/
theorem c8_finess_engine_depends_on_cache (net : Net) (fs : FS)
    (dv : CsvData) (dm : CsvData) (tnet tdisk : Table)
    (hdir : fs.dirExists = true) (hwr : fs.writable = true)
    (hv : fs.lookup "valeur.csv" = some (.csvFile dv))
    (hm : fs.lookup "metadata.csv" = some (.csvFile dm))
    (habs : fs.lookup "finess.parquet" = none)
    (hnf : net finessUrl = some (.parquetRes tnet)) :
    (∃ b, (fetch_bqss_data net fs).1 = .ok b ∧
      List.lookup "finess" b = some ⟨.pandas, tnet⟩ ∧
      List.lookup "valeur" b = some ⟨.pandas, readCsvData dv⟩ ∧
      List.lookup "metadata" b = some ⟨.pandas, readCsvData dm⟩) ∧
    (∃ b, (fetch_bqss_data net
        { fs with files :=
            ("finess.parquet", .parquetFile tdisk) :: fs.files }).1 = .ok b ∧
      List.lookup "finess" b = some ⟨.polars, tdisk⟩ ∧
      List.lookup "valeur" b = some ⟨.pandas, readCsvData dv⟩ ∧
      List.lookup "metadata" b = some ⟨.pandas, readCsvData dm⟩) := by
  constructor
  · have hv2 : List.lookup "valeur.csv" fs.files = some (.csvFile dv) := hv
    have hm2 : List.lookup "metadata.csv" fs.files = some (.csvFile dm) := hm
    have habs2 : List.lookup "finess.parquet" fs.files = none := habs
    have h1 : fetchOne net fs "valeur" valeurUrl =
        (.ok ⟨.pandas, readCsvData dv⟩, fs, []) := by
      simp [fetchOne, FS.pathExists, FS.lookup, hdir, hv2]
    have hmiss2 : fs.pathExists ("finess" ++ ".parquet") = false := by
      simp [FS.pathExists, FS.lookup, habs2]
    have h2 := fetchOne_miss_parquet hmiss2 hnf hdir hwr
    have h3 : fetchOne net
        { fs with files :=
            ("finess" ++ ".parquet", .parquetFile tnet) :: fs.files }
        "metadata" metadataUrl =
        (.ok ⟨.pandas, readCsvData dm⟩,
          { fs with files :=
              ("finess" ++ ".parquet", .parquetFile tnet) :: fs.files },
          []) := by
      simp [fetchOne, FS.pathExists, FS.lookup, List.lookup, hdir, hm2]
    refine ⟨[("valeur", ⟨.pandas, readCsvData dv⟩), ("finess", ⟨.pandas, tnet⟩),
      ("metadata", ⟨.pandas, readCsvData dm⟩)], ?_, by simp [List.lookup],
      by simp [List.lookup], by simp [List.lookup]⟩
    rw [fetch_bqss_data, registry]
    simp only [fetchLoop, h1, h2, h3, List.nil_append, List.append_nil]
    simp
  · have hv2 : fs.lookup "valeur.csv" = some (.csvFile dv) := hv
    have hv3 : FS.lookup
        { fs with files := ("finess.parquet", .parquetFile tdisk) :: fs.files }
        "valeur.csv" = some (.csvFile dv) := by
      show List.lookup "valeur.csv" _ = _
      rw [lookup_cons_ne (by decide)]
      exact hv2
    have hm3 : FS.lookup
        { fs with files := ("finess.parquet", .parquetFile tdisk) :: fs.files }
        "metadata.csv" = some (.csvFile dm) := by
      show List.lookup "metadata.csv" _ = _
      rw [lookup_cons_ne (by decide)]
      exact hm
    have hf3 : FS.lookup
        { fs with files := ("finess.parquet", .parquetFile tdisk) :: fs.files }
        "finess.parquet" = some (.parquetFile tdisk) := lookup_cons_self
    have hrun := run_all_cached net
      { fs with files := ("finess.parquet", .parquetFile tdisk) :: fs.files }
      dv tdisk dm hdir hv3 hf3 hm3
    refine ⟨[("valeur", ⟨.pandas, readCsvData dv⟩), ("finess", ⟨.polars, tdisk⟩),
      ("metadata", ⟨.pandas, readCsvData dm⟩)], ?_, by simp [List.lookup],
      by simp [List.lookup], by simp [List.lookup]⟩
    rw [hrun]

/-- A cache directory holding the `valeur` and `metadata` files only,
used for the C8 witness. -/
def fsNoFiness : FS :=
  ⟨true, true,
    [("valeur.csv", .csvFile sampleCsv),
     ("metadata.csv", .csvFile sampleCsv2)]⟩

/-- Witness for C8 at a concrete cache state and network. -/
theorem c8_finess_engine_depends_on_cache_witness :
    (∃ b, (fetch_bqss_data netAll fsNoFiness).1 = .ok b ∧
      List.lookup "finess" b = some ⟨.pandas, sampleTable⟩ ∧
      List.lookup "valeur" b = some ⟨.pandas, readCsvData sampleCsv⟩ ∧
      List.lookup "metadata" b = some ⟨.pandas, readCsvData sampleCsv2⟩) ∧
    (∃ b, (fetch_bqss_data netAll
        { fsNoFiness with files :=
            ("finess.parquet", .parquetFile sampleTable) ::
              fsNoFiness.files }).1 = .ok b ∧
      List.lookup "finess" b = some ⟨.polars, sampleTable⟩ ∧
      List.lookup "valeur" b = some ⟨.pandas, readCsvData sampleCsv⟩ ∧
      List.lookup "metadata" b = some ⟨.pandas, readCsvData sampleCsv2⟩) :=
  c8_finess_engine_depends_on_cache netAll fsNoFiness sampleCsv sampleCsv2
    sampleTable sampleTable rfl rfl rfl rfl rfl (by decide)
